import Mathlib

/-!
Verification of the test-configuration optimization pipeline:
shallow embedding of `generate_tests.py`, `prune_tests.py`,
`optimize_test_order.py` and `costcalc2.py`.
-/

set_option maxHeartbeats 1000000

namespace Pipeline

/-! ## Embedding of `optimize_test_order.py`, class `TSP2Opt` -/

/-- Source `TSP2Opt.distance`: reads the lower-triangular weight matrix,
`weights[i][j]` when `j < i`, else `weights[j][i]`. -/
def distance (w : List (List Int)) (i j : Nat) : Int :=
  if j < i then (w.getD i []).getD j 0 else (w.getD j []).getD i 0

/-- Source `TSP2Opt.dimension = len(weights)`. -/
def dimension (w : List (List Int)) : Nat := w.length

lemma distance_symm (w : List (List Int)) (i j : Nat) :
    distance w i j = distance w j i := by
  unfold distance
  rcases lt_trichotomy i j with h | h | h
  · rw [if_neg (by omega), if_pos h]
  · subst h; simp
  · rw [if_pos h, if_neg (by omega)]

/-- Source `TSP2Opt._calculate_initial_cost`: sum of `distance(tour[i], tour[(i+1) % n])`. -/
def calculate_initial_cost (w : List (List Int)) (tour : List Nat) : Int :=
  ∑ i in Finset.range tour.length,
    distance w (tour.getD i 0) (tour.getD ((i + 1) % tour.length) 0)

/-- The `while i < j` loop body of `TSP2Opt.swap_edges`: swap `tour[i]` and
`tour[j]`, then `i += 1`, `j -= 1`. -/
def swap_loop (t : List Nat) (i j : Nat) : List Nat :=
  if _h : i < j then
    swap_loop ((t.set i (t.getD j 0)).set j (t.getD i 0)) (i + 1) (j - 1)
  else t
termination_by j - i
decreasing_by omega

/-- Source `TSP2Opt.swap_edges`: Ruby increments `i` first, then runs the swap loop. -/
def swap_edges (t : List Nat) (i j : Nat) : List Nat := swap_loop t (i + 1) j

/-- The `cost_delta` expression of `TSP2Opt.optimize`. -/
def cost_delta (w : List (List Int)) (t : List Nat) (i j : Nat) : Int :=
  0 - distance w (t.getD i 0) (t.getD (i + 1) 0)
    - distance w (t.getD j 0) (t.getD ((j + 1) % dimension w) 0)
    + distance w (t.getD i 0) (t.getD j 0)
    + distance w (t.getD (i + 1) 0) (t.getD ((j + 1) % dimension w) 0)

/-- The mutable state of `TSP2Opt`: the `tour` and running `cost` fields. -/
structure TSPState where
  tour : List Nat
  cost : Int
deriving DecidableEq

/-- Source `TSP2Opt.__init__`: identity tour over `range(dimension)`, cost computed
from scratch. -/
def init_state (w : List (List Int)) : TSPState :=
  { tour := List.range (dimension w)
    cost := calculate_initial_cost w (List.range (dimension w)) }

/-- The accepted-swap branch of `TSP2Opt.optimize`: `swap_edges(i, j)` then
`cost += cost_delta`. -/
def accept_swap (w : List (List Int)) (s : TSPState) (i j : Nat) : TSPState :=
  { tour := swap_edges s.tour i j, cost := s.cost + cost_delta w s.tour i j }

/-- One `(i, j)` slot of the doubly nested scan in `TSP2Opt.optimize`. -/
def two_opt_step (w : List (List Int)) (i j : Nat) (sb : TSPState × Bool) :
    TSPState × Bool :=
  if cost_delta w sb.1.tour i j < 0 then (accept_swap w sb.1 i j, true) else sb

/-- One full pass of the nested `for i` / `for j` loops, carrying the
`found_improvement` flag. -/
def scan_once (w : List (List Int)) (s : TSPState) : TSPState × Bool :=
  (List.range (dimension w - 1)).foldl
    (fun sb i =>
      (List.range' (i + 2) (dimension w - (i + 2))).foldl
        (fun sb' j => two_opt_step w i j sb') sb)
    (s, false)

/-- Source `TSP2Opt.optimize`: repeat full scans while an improvement was found.
The `while found_improvement` loop is modelled with explicit fuel; every
theorem below holds for every fuel value, hence at actual termination. -/
def optimize (w : List (List Int)) : Nat → TSPState → TSPState
  | 0, s => s
  | fuel + 1, s =>
    let r := scan_once w s
    if r.2 then optimize w fuel r.1 else r.1

/-! ### Properties of `swap_edges` -/

lemma getD_set_self (l : List Nat) (m v : Nat) (h : m < l.length) :
    (l.set m v).getD m 0 = v := by
  simp [List.getD_eq_getElem?_getD, List.getElem?_set_eq_of_lt v h]

lemma getD_set_ne (l : List Nat) (m k v : Nat) (h : m ≠ k) :
    (l.set m v).getD k 0 = l.getD k 0 := by
  simp [List.getD_eq_getElem?_getD, List.getElem?_set_ne h]

lemma swap_loop_length (fuel : Nat) : ∀ (t : List Nat) (i j : Nat), j - i ≤ fuel →
    (swap_loop t i j).length = t.length := by
  induction fuel with
  | zero =>
    intro t i j h
    rw [swap_loop, dif_neg (by omega)]
  | succ n ih =>
    intro t i j h
    by_cases hij : i < j
    · rw [swap_loop, dif_pos hij, ih _ _ _ (by omega)]
      simp
    · rw [swap_loop, dif_neg hij]

/-- Pointwise characterization: the swap loop reverses the segment `[i, j]`. -/
lemma swap_loop_getD (fuel : Nat) : ∀ (t : List Nat) (i j : Nat), j - i ≤ fuel →
    j < t.length → ∀ k,
    (swap_loop t i j).getD k 0 =
      if i ≤ k ∧ k ≤ j then t.getD (i + j - k) 0 else t.getD k 0 := by
  induction fuel with
  | zero =>
    intro t i j h _ k
    rw [swap_loop, dif_neg (by omega)]
    by_cases hk : i ≤ k ∧ k ≤ j
    · rw [if_pos hk]
      have hkk : i + j - k = k := by omega
      rw [hkk]
    · rw [if_neg hk]
  | succ n ih =>
    intro t i j h hj k
    by_cases hij : i < j
    · rw [swap_loop, dif_pos hij]
      have hset : ∀ m, ((t.set i (t.getD j 0)).set j (t.getD i 0)).getD m 0 =
          if m = i then t.getD j 0 else if m = j then t.getD i 0 else t.getD m 0 := by
        intro m
        by_cases hmi : m = i
        · rw [if_pos hmi, hmi, getD_set_ne _ _ _ _ (by omega),
            getD_set_self _ _ _ (by omega)]

        · by_cases hmj : m = j
          · rw [if_neg hmi, if_pos hmj, hmj,
              getD_set_self _ _ _ (by simpa using hj)]
          · rw [if_neg hmi, if_neg hmj, getD_set_ne _ _ _ _ (Ne.symm hmj),
              getD_set_ne _ _ _ _ (Ne.symm hmi)]
      rw [ih _ (i + 1) (j - 1) (by omega) (by simpa using (by omega : j - 1 < t.length)) k]
      by_cases hin : i + 1 ≤ k ∧ k ≤ j - 1
      · rw [if_pos hin, if_pos (by omega : i ≤ k ∧ k ≤ j), hset]
        rw [if_neg (by omega), if_neg (by omega)]
        have hkk : i + 1 + (j - 1) - k = i + j - k := by omega
        rw [hkk]
      · rw [if_neg hin, hset]
        by_cases hki : k = i
        · rw [if_pos hki, if_pos (by omega : i ≤ k ∧ k ≤ j), hki]
          have hkk : i + j - i = j := by omega
          rw [hkk]
        · by_cases hkj : k = j
          · rw [if_neg hki, if_pos hkj, if_pos (by omega : i ≤ k ∧ k ≤ j), hkj]
            have hkk : i + j - j = i := by omega
            rw [hkk]
          · rw [if_neg hki, if_neg hkj, if_neg (by omega)]
    · rw [swap_loop, dif_neg hij]
      by_cases hk : i ≤ k ∧ k ≤ j
      · rw [if_pos hk]
        have hkk : i + j - k = k := by omega
        rw [hkk]
      · rw [if_neg hk]

/-- The function `swap_edges` never moves tour position 0 (the loop starts at `i + 1 ≥ 1`). -/
lemma swap_edges_getD_zero (t : List Nat) (i j : Nat) (hj : j < t.length) :
    (swap_edges t i j).getD 0 0 = t.getD 0 0 := by
  rw [swap_edges, swap_loop_getD (j - (i + 1)) t (i + 1) j le_rfl hj 0,
    if_neg (by omega)]

lemma swap_edges_length (t : List Nat) (i j : Nat) :
    (swap_edges t i j).length = t.length :=
  swap_loop_length (j - (i + 1)) t (i + 1) j le_rfl

lemma getD_eq_getElem (l : List Nat) (k : Nat) (h : k < l.length) :
    l.getD k 0 = l[k] := by
  rw [List.getD_eq_getElem?_getD, List.getElem?_eq_getElem h]
  rfl

lemma ext_getD (l₁ l₂ : List Nat) (hlen : l₁.length = l₂.length)
    (h : ∀ k, k < l₁.length → l₁.getD k 0 = l₂.getD k 0) : l₁ = l₂ := by
  apply List.ext_getElem hlen
  intro k hk1 hk2
  rw [← getD_eq_getElem _ _ hk1, ← getD_eq_getElem _ _ hk2]
  exact h k hk1

lemma getD_append_left (A B : List Nat) (k : Nat) (h : k < A.length) :
    (A ++ B).getD k 0 = A.getD k 0 := by
  rw [List.getD_eq_getElem?_getD, List.getD_eq_getElem?_getD,
    List.getElem?_append, if_pos h]

lemma getD_append_right (A B : List Nat) (k : Nat) (h : A.length ≤ k) :
    (A ++ B).getD k 0 = B.getD (k - A.length) 0 := by
  rw [List.getD_eq_getElem?_getD, List.getD_eq_getElem?_getD,
    List.getElem?_append, if_neg (by omega)]

lemma getD_take (l : List Nat) (m k : Nat) (h : k < m) :
    (l.take m).getD k 0 = l.getD k 0 := by
  rw [List.getD_eq_getElem?_getD, List.getD_eq_getElem?_getD,
    List.getElem?_take, if_pos h]

lemma getD_drop (l : List Nat) (m k : Nat) :
    (l.drop m).getD k 0 = l.getD (m + k) 0 := by
  rw [List.getD_eq_getElem?_getD, List.getD_eq_getElem?_getD,
    List.getElem?_drop]

lemma getD_reverse (l : List Nat) (k : Nat) (h : k < l.length) :
    l.reverse.getD k 0 = l.getD (l.length - 1 - k) 0 := by
  rw [getD_eq_getElem _ _ (by simpa using h),
    getD_eq_getElem _ _ (by omega : l.length - 1 - k < l.length)]
  exact List.getElem_reverse (by simpa using h)

/-- Structural characterization: `swap_edges t i j` reverses the slice
`t[i+1 .. j]` in place. -/
lemma swap_edges_eq_reverse (t : List Nat) (i j : Nat) (hij : i + 1 ≤ j)
    (hj : j < t.length) :
    swap_edges t i j =
      t.take (i + 1) ++ ((t.drop (i + 1)).take (j - i)).reverse ++ t.drop (j + 1) := by
  have hAlen : (t.take (i + 1)).length = i + 1 := by simp; omega
  have hBlen : ((t.drop (i + 1)).take (j - i)).length = j - i := by simp; omega
  apply ext_getD
  · rw [swap_edges_length]
    simp
    omega
  intro k hk
  rw [swap_edges_length] at hk
  rw [swap_edges, swap_loop_getD (j - (i + 1)) t (i + 1) j le_rfl hj k]
  by_cases hk0 : k ≤ i
  · rw [if_neg (by omega), getD_append_left _ _ _
      (by rw [List.length_append, hAlen]; omega),
      getD_append_left _ _ _ (by omega), getD_take _ _ _ (by omega)]
  · by_cases hkj : k ≤ j
    · rw [if_pos (by omega), getD_append_left _ _ _
        (by rw [List.length_append, hAlen, List.length_reverse, hBlen]; omega),
        getD_append_right _ _ _ (by omega), hAlen,
        getD_reverse _ _ (by rw [hBlen]; omega),
        hBlen, getD_take _ _ _ (by omega), getD_drop]
      congr 1
      omega
    · rw [if_neg (by omega), getD_append_right _ _ _
        (by rw [List.length_append, hAlen, List.length_reverse, hBlen]; omega),
        getD_drop, List.length_append, hAlen, List.length_reverse, hBlen]
      congr 1
      omega

/-! ### Tour-cost decomposition -/

/-- Sum of distances along consecutive pairs of a path (no closing edge). -/
def path_cost (w : List (List Int)) : List Nat → Int
  | [] => 0
  | [_] => 0
  | a :: b :: l => distance w a b + path_cost w (b :: l)

/-- Cyclic tour cost: path cost plus the closing edge. -/
def tour_cost (w : List (List Int)) (t : List Nat) : Int :=
  path_cost w t + (if t = [] then 0 else distance w (t.getLastD 0) (t.headD 0))

lemma path_cost_cons (w : List (List Int)) (a : Nat) (l : List Nat) (h : l ≠ []) :
    path_cost w (a :: l) = distance w a (l.headD 0) + path_cost w l := by
  cases l with
  | nil => exact absurd rfl h
  | cons b l' => rfl

lemma headD_append (l₁ l₂ : List Nat) (d : Nat) (h : l₁ ≠ []) :
    (l₁ ++ l₂).headD d = l₁.headD d := by
  cases l₁ with
  | nil => exact absurd rfl h
  | cons a l => rfl

lemma getLastD_append (l₁ l₂ : List Nat) (d : Nat) (h : l₂ ≠ []) :
    (l₁ ++ l₂).getLastD d = l₂.getLastD d := by
  rw [List.getLastD_eq_getLast?, List.getLastD_eq_getLast?,
    List.getLast?_append_of_ne_nil l₁ h]

lemma getLastD_cons_ne (a : Nat) (l : List Nat) (d : Nat) (h : l ≠ []) :
    (a :: l).getLastD d = l.getLastD d := by
  have : a :: l = [a] ++ l := rfl
  rw [this, getLastD_append _ _ _ h]

lemma getLastD_reverse (l : List Nat) (d : Nat) :
    l.reverse.getLastD d = l.headD d := by
  rw [List.getLastD_eq_getLast?, List.getLast?_reverse, List.headD_eq_head?]

lemma headD_reverse (l : List Nat) (d : Nat) :
    l.reverse.headD d = l.getLastD d := by
  rw [List.headD_eq_head?, List.head?_reverse, List.getLastD_eq_getLast?]

lemma path_cost_append (w : List (List Int)) :
    ∀ (l₁ l₂ : List Nat), l₁ ≠ [] → l₂ ≠ [] →
    path_cost w (l₁ ++ l₂) =
      path_cost w l₁ + distance w (l₁.getLastD 0) (l₂.headD 0) + path_cost w l₂ := by
  intro l₁
  induction l₁ with
  | nil => intro l₂ h1 _; exact absurd rfl h1
  | cons a l₁' ih =>
    intro l₂ _ h2
    cases h1' : l₁' with
    | nil =>
      subst h1'
      rw [List.singleton_append, path_cost_cons w a l₂ h2]
      simp [path_cost]
    | cons b l₁'' =>
      have hne : l₁' ≠ [] := by rw [h1']; simp
      rw [← h1']
      rw [List.cons_append, path_cost_cons w a (l₁' ++ l₂) (by simp [hne]),
        headD_append _ _ _ hne, ih l₂ hne h2, path_cost_cons w a l₁' hne,
        getLastD_cons_ne a l₁' 0 hne]
      ring

lemma path_cost_reverse (w : List (List Int)) :
    ∀ (l : List Nat), path_cost w l.reverse = path_cost w l := by
  intro l
  induction l with
  | nil => rfl
  | cons a l ih =>
    cases hl : l with
    | nil => rfl
    | cons b l' =>
      have hne : l ≠ [] := by rw [hl]; simp
      rw [← hl, List.reverse_cons,
        path_cost_append w l.reverse [a] (by simpa using hne) (by simp),
        getLastD_reverse, ih, path_cost_cons w a l hne]
      simp [path_cost]
      rw [distance_symm]
      ring

lemma getLastD_eq_getD (l : List Nat) (_h : l ≠ []) :
    l.getLastD 0 = l.getD (l.length - 1) 0 := by
  rw [List.getLastD_eq_getLast?, List.getLast?_eq_getElem?, List.getD_eq_getElem?_getD]

lemma path_cost_eq_sum (w : List (List Int)) :
    ∀ (t : List Nat),
      (∑ k in Finset.range (t.length - 1),
        distance w (t.getD k 0) (t.getD (k + 1) 0)) = path_cost w t := by
  intro t
  induction t with
  | nil => simp [path_cost]
  | cons a t ih =>
    cases ht : t with
    | nil => simp [path_cost]
    | cons b l =>
      subst ht
      have hn : (a :: b :: l).length - 1 = l.length + 1 := by simp
      rw [hn, Finset.sum_range_succ']
      simp only [List.getD_cons_succ, List.getD_cons_zero]
      have hn2 : (b :: l).length - 1 = l.length := by simp
      rw [hn2] at ih
      simp only [List.getD_cons_succ] at ih
      rw [ih]
      show path_cost w (b :: l) + distance w a b = distance w a b + path_cost w (b :: l)
      ring

/-- The from-scratch cost of `_calculate_initial_cost` agrees with the
structural tour cost. -/
lemma calculate_initial_cost_eq_tour_cost (w : List (List Int)) (t : List Nat) :
    calculate_initial_cost w t = tour_cost w t := by
  cases t with
  | nil => simp [calculate_initial_cost, tour_cost, path_cost]
  | cons a l =>
    unfold calculate_initial_cost tour_cost
    have hn : (a :: l).length = l.length + 1 := by simp
    rw [hn, Finset.sum_range_succ]
    have hcong :
        (∑ k in Finset.range l.length,
          distance w ((a :: l).getD k 0) ((a :: l).getD ((k + 1) % (l.length + 1)) 0)) =
        ∑ k in Finset.range l.length,
          distance w ((a :: l).getD k 0) ((a :: l).getD (k + 1) 0) := by
      refine Finset.sum_congr rfl fun k hk => ?_
      rw [Nat.mod_eq_of_lt (by simp at hk; omega)]
    rw [hcong]
    have hsum := path_cost_eq_sum w (a :: l)
    rw [hn] at hsum
    simp only [Nat.add_sub_cancel] at hsum
    rw [hsum, Nat.mod_self]
    rw [if_neg (by simp)]
    have hlast : (a :: l).getD ((a :: l).length - 1) 0 = (a :: l).getLastD 0 :=
      (getLastD_eq_getD _ (by simp)).symm
    rw [hn] at hlast
    simp only [Nat.add_sub_cancel] at hlast
    rw [hlast]
    rfl

/-- Effect on the cyclic tour cost of reversing the middle block `B`. -/
lemma tour_cost_reverse_middle (w : List (List Int)) (A B C : List Nat)
    (hA : A ≠ []) (hB : B ≠ []) :
    tour_cost w (A ++ B.reverse ++ C) =
      tour_cost w (A ++ B ++ C)
        - distance w (A.getLastD 0) (B.headD 0)
        - distance w (B.getLastD 0) (C.headD (A.headD 0))
        + distance w (A.getLastD 0) (B.getLastD 0)
        + distance w (B.headD 0) (C.headD (A.headD 0)) := by
  have hBrev : B.reverse ≠ [] := by simpa using hB
  cases C with
  | nil =>
    simp only [List.append_nil, List.headD_nil]
    unfold tour_cost
    rw [if_neg (by simp [hA]), if_neg (by simp [hA])]
    rw [path_cost_append w A B.reverse hA hBrev, path_cost_append w A B hA hB,
      path_cost_reverse, headD_reverse,
      getLastD_append A B.reverse 0 hBrev, getLastD_append A B 0 hB,
      getLastD_reverse, headD_append A B.reverse 0 hA, headD_append A B 0 hA]
    ring
  | cons c C' =>
    have hC : (c :: C') ≠ [] := by simp
    unfold tour_cost
    rw [if_neg (by simp [hA]), if_neg (by simp [hA])]
    rw [path_cost_append w (A ++ B.reverse) (c :: C') (by simp [hA]) hC,
      path_cost_append w (A ++ B) (c :: C') (by simp [hA]) hC,
      path_cost_append w A B.reverse hA hBrev, path_cost_append w A B hA hB,
      path_cost_reverse, headD_reverse,
      getLastD_append A B.reverse 0 hBrev, getLastD_append A B 0 hB,
      getLastD_reverse,
      getLastD_append (A ++ B.reverse) (c :: C') 0 hC,
      getLastD_append (A ++ B) (c :: C') 0 hC,
      headD_append (A ++ B.reverse) (c :: C') 0 (by simp [hA]),
      headD_append (A ++ B) (c :: C') 0 (by simp [hA]),
      headD_append A B.reverse 0 hA, headD_append A B 0 hA]
    show _ = _ + _ - _ - distance w (B.getLastD 0) ((c :: C').headD (A.headD 0)) + _
      + distance w (B.headD 0) ((c :: C').headD (A.headD 0))
    rw [List.headD_cons, List.headD_cons]
    ring

lemma headD_eq_getD_zero (l : List Nat) (d : Nat) (h : l ≠ []) :
    l.headD d = l.getD 0 0 := by
  cases l with
  | nil => exact absurd rfl h
  | cons a l => rfl

/-- An accepted 2-opt swap changes the from-scratch tour cost by exactly
the `cost_delta` formula of the source. -/
lemma calculate_initial_cost_swap (w : List (List Int)) (t : List Nat) (i j : Nat)
    (h2 : i + 2 ≤ j) (hj : j < t.length) (hdim : t.length = dimension w) :
    calculate_initial_cost w (swap_edges t i j) =
      calculate_initial_cost w t + cost_delta w t i j := by
  have hsw := swap_edges_eq_reverse t i j (by omega) hj
  have hAlen : (t.take (i + 1)).length = i + 1 := by simp; omega
  have hBlen : ((t.drop (i + 1)).take (j - i)).length = j - i := by simp; omega
  have hA : t.take (i + 1) ≠ [] := by
    intro hnil; rw [hnil] at hAlen; simp at hAlen
  have hB : (t.drop (i + 1)).take (j - i) ≠ [] := by
    intro hnil; rw [hnil] at hBlen; simp at hBlen; omega
  have hBC : (t.drop (i + 1)).take (j - i) ++ t.drop (j + 1) = t.drop (i + 1) := by
    have hd : t.drop (j + 1) = ((t.drop (i + 1)).drop (j - i)) := by
      rw [List.drop_drop]
      congr 1
      omega
    rw [hd]
    exact List.take_append_drop _ _
  have ht : t.take (i + 1) ++ (t.drop (i + 1)).take (j - i) ++ t.drop (j + 1) = t := by
    rw [List.append_assoc, hBC]
    exact List.take_append_drop _ _
  have eA_last : (t.take (i + 1)).getLastD 0 = t.getD i 0 := by
    rw [getLastD_eq_getD _ hA, hAlen, Nat.add_sub_cancel, getD_take _ _ _ (by omega)]
  have eA_head : (t.take (i + 1)).headD 0 = t.getD 0 0 := by
    rw [headD_eq_getD_zero _ _ hA, getD_take _ _ _ (by omega)]
  have eB_head : ((t.drop (i + 1)).take (j - i)).headD 0 = t.getD (i + 1) 0 := by
    rw [headD_eq_getD_zero _ _ hB, getD_take _ _ _ (by omega), getD_drop]
  have eB_last : ((t.drop (i + 1)).take (j - i)).getLastD 0 = t.getD j 0 := by
    rw [getLastD_eq_getD _ hB, hBlen, getD_take _ _ _ (by omega), getD_drop]
    congr 1
    omega
  have eC_head : (t.drop (j + 1)).headD (t.getD 0 0) =
      t.getD ((j + 1) % t.length) 0 := by
    by_cases hc : j + 1 < t.length
    · have hCne : t.drop (j + 1) ≠ [] := by
        intro hnil
        have := congrArg List.length hnil
        simp at this
        omega
      rw [headD_eq_getD_zero _ _ hCne, getD_drop, Nat.mod_eq_of_lt hc]
    · have hjl : j + 1 = t.length := by omega
      have hCnil : t.drop (j + 1) = [] := by
        apply List.drop_eq_nil_of_le
        omega
      rw [hCnil, List.headD_nil, hjl, Nat.mod_self]
  rw [calculate_initial_cost_eq_tour_cost, calculate_initial_cost_eq_tour_cost, hsw,
    tour_cost_reverse_middle w _ _ _ hA hB, ht, eA_last, eA_head, eB_head, eB_last,
    eC_head]
  unfold cost_delta
  rw [← hdim]
  ring

/-! ### Invariants of the optimize loop -/

lemma foldl_inv {α β : Type} (P : α → Prop) (f : α → β → α) :
    ∀ (l : List β) (a : α), (∀ x b, b ∈ l → P x → P (f x b)) → P a →
      P (l.foldl f a) := by
  intro l
  induction l with
  | nil => intro a _ h; exact h
  | cons b l ih =>
    intro a hstep h
    exact ih (f a b) (fun x c hc hx => hstep x c (List.mem_cons_of_mem _ hc) hx)
      (hstep a b (List.mem_cons_self _ _) h)

/-- The running invariant of `TSP2Opt`: the `cost` field equals the
from-scratch tour cost, and the tour has `dimension` entries. -/
def tsp_inv (w : List (List Int)) (s : TSPState) : Prop :=
  s.cost = calculate_initial_cost w s.tour ∧ s.tour.length = dimension w

lemma two_opt_step_inv (w : List (List Int)) (i j : Nat) (h2 : i + 2 ≤ j)
    (hj : j < dimension w) (sb : TSPState × Bool) (h : tsp_inv w sb.1) :
    tsp_inv w (two_opt_step w i j sb).1 := by
  obtain ⟨hc, hl⟩ := h
  unfold two_opt_step
  by_cases hd : cost_delta w sb.1.tour i j < 0
  · rw [if_pos hd]
    refine ⟨?_, ?_⟩
    · show sb.1.cost + cost_delta w sb.1.tour i j =
        calculate_initial_cost w (swap_edges sb.1.tour i j)
      rw [calculate_initial_cost_swap w sb.1.tour i j h2 (by omega) hl, hc]
    · show (swap_edges sb.1.tour i j).length = dimension w
      rw [swap_edges_length, hl]
  · rw [if_neg hd]
    exact ⟨hc, hl⟩

lemma scan_once_inv (w : List (List Int)) (s : TSPState) (h : tsp_inv w s) :
    tsp_inv w (scan_once w s).1 := by
  unfold scan_once
  refine foldl_inv (fun (sb : TSPState × Bool) => tsp_inv w sb.1) _ _ _ ?_ h
  intro sb i _ hsb
  refine foldl_inv (fun (sb' : TSPState × Bool) => tsp_inv w sb'.1) _ _ _ ?_ hsb
  intro sb' j hjmem hsb'
  rw [List.mem_range'] at hjmem
  obtain ⟨m, hm, rfl⟩ := hjmem
  exact two_opt_step_inv w i _ (by omega) (by omega) sb' hsb'

lemma optimize_inv (w : List (List Int)) (fuel : Nat) :
    ∀ (s : TSPState), tsp_inv w s → tsp_inv w (optimize w fuel s) := by
  induction fuel with
  | zero => intro s h; exact h
  | succ n ih =>
    intro s h
    have hs := scan_once_inv w s h
    show tsp_inv w (if (scan_once w s).2 then optimize w n (scan_once w s).1
      else (scan_once w s).1)
    by_cases hr : (scan_once w s).2
    · rw [if_pos hr]
      exact ih _ hs
    · rw [if_neg hr]
      exact hs

lemma init_state_inv (w : List (List Int)) : tsp_inv w (init_state w) :=
  ⟨rfl, List.length_range _⟩

/-! ### Tour position 0 is never moved -/

lemma swap_loop_getD_zero (fuel : Nat) : ∀ (t : List Nat) (i j : Nat),
    1 ≤ i → j - i ≤ fuel → (swap_loop t i j).getD 0 0 = t.getD 0 0 := by
  induction fuel with
  | zero =>
    intro t i j _ h
    rw [swap_loop, dif_neg (by omega)]
  | succ n ih =>
    intro t i j hi h
    by_cases hij : i < j
    · rw [swap_loop, dif_pos hij, ih _ (i + 1) (j - 1) (by omega) (by omega),
        getD_set_ne _ _ _ _ (by omega), getD_set_ne _ _ _ _ (by omega)]
    · rw [swap_loop, dif_neg hij]

/-- The function `swap_edges` never touches tour position 0: the loop starts at `i + 1 ≥ 1`. -/
lemma swap_edges_getD_zero' (t : List Nat) (i j : Nat) :
    (swap_edges t i j).getD 0 0 = t.getD 0 0 :=
  swap_loop_getD_zero (j - (i + 1)) t (i + 1) j (by omega) le_rfl

lemma two_opt_step_head (w : List (List Int)) (i j : Nat) (sb : TSPState × Bool) :
    (two_opt_step w i j sb).1.tour.getD 0 0 = sb.1.tour.getD 0 0 := by
  unfold two_opt_step
  by_cases hd : cost_delta w sb.1.tour i j < 0
  · rw [if_pos hd]
    exact swap_edges_getD_zero' _ _ _
  · rw [if_neg hd]

lemma scan_once_head (w : List (List Int)) (s : TSPState) :
    (scan_once w s).1.tour.getD 0 0 = s.tour.getD 0 0 := by
  unfold scan_once
  refine foldl_inv (fun (sb : TSPState × Bool) => sb.1.tour.getD 0 0 = s.tour.getD 0 0) _ _ _ ?_ rfl
  intro sb i _ hsb
  refine foldl_inv (fun (sb' : TSPState × Bool) => sb'.1.tour.getD 0 0 = s.tour.getD 0 0) _ _ _ ?_ hsb
  intro sb' j _ hsb'
  rw [two_opt_step_head, hsb']

lemma optimize_head (w : List (List Int)) (fuel : Nat) :
    ∀ (s : TSPState), (optimize w fuel s).tour.getD 0 0 = s.tour.getD 0 0 := by
  induction fuel with
  | zero => intro s; rfl
  | succ n ih =>
    intro s
    show (if (scan_once w s).2 then optimize w n (scan_once w s).1
      else (scan_once w s).1).tour.getD 0 0 = s.tour.getD 0 0
    by_cases hr : (scan_once w s).2
    · rw [if_pos hr, ih, scan_once_head]
    · rw [if_neg hr, scan_once_head]

lemma range_getD_zero (n : Nat) : (List.range n).getD 0 0 = 0 := by
  cases n with
  | zero => rfl
  | succ m => rw [List.range_succ_eq_map]; rfl

lemma optimize_length (w : List (List Int)) (fuel : Nat) :
    ∀ (s : TSPState), tsp_inv w s → (optimize w fuel s).tour.length = dimension w :=
  fun s h => (optimize_inv w fuel s h).2

/-! ## Embedding of `OptimizeTestOrder.run` -/

/-- A test dict as consumed by the optimizer: `id` is `none` when the dict has
no `id` key (only the synthetic empty configuration carries one). -/
structure OTest where
  id : Option Int
  uuid : String
  scenarios : List String
  quantities : List (String × List String)
deriving DecidableEq, Inhabited

/-- The synthetic `{'id': 0, 'scenarios': [], 'quantities': {}}` inserted at
list index 0 (it has no `uuid` key; modelled as `""`, never read). -/
def empty_test : OTest :=
  { id := some 0, uuid := "", scenarios := [], quantities := [] }

/-- Python `dict.get(key, 0)` over a string-keyed cost table. -/
def lookupD (m : List (String × Int)) (k : String) : Int :=
  match m.find? (fun p => p.1 == k) with
  | some p => p.2
  | none => 0

/-- Source `OptimizeTestOrder.make_weights`: lower-triangular symmetric-difference
cost matrix. -/
def make_weights (tests : List OTest) (cost_map : List (String × Int)) :
    List (List Int) :=
  (List.range tests.length).map fun i =>
    (List.range (i + 1)).map fun j =>
      let si := (tests.getD i default).scenarios.toFinset
      let sj := (tests.getD j default).scenarios.toFinset
      ∑ e in (sj \ si) ∪ (si \ sj), lookupD cost_map e

/-- Lexicographic comparison of character lists (Python's string order:
code-point lexicographic). -/
def chars_leb : List Char → List Char → Bool
  | [], _ => true
  | _ :: _, [] => false
  | a :: as, b :: bs => if a < b then true else if b < a then false else chars_leb as bs

/-- Python's `<=` on strings: lexicographic on code points. -/
def str_leb (a b : String) : Bool := chars_leb a.data b.data

def insert_sorted (a : String) : List String → List String
  | [] => [a]
  | b :: l => if str_leb a b then a :: b :: l else b :: insert_sorted a l

/-- Python `sorted(...)` over a list of strings (insertion sort, ascending). -/
def sort_strings : List String → List String
  | [] => []
  | a :: l => insert_sorted a (sort_strings l)

/-- Python `sorted(list(set(a)))`. -/
def sorted_dedup (a : List String) : List String := sort_strings a.dedup

/-- Python `sorted(list(set(a) - set(b)))`. -/
def sorted_diff (a b : List String) : List String :=
  sort_strings (a.dedup.filter (fun e => !(b.contains e)))

/-- An emitted test: a copy of the successor tour node with `id`, `scenarios`,
`retract` and `apply` overwritten. -/
structure ETest where
  id : Int
  uuid : String
  scenarios : List String
  quantities : List (String × List String)
  retract : List String
  apply : List String
deriving DecidableEq, Inhabited

/-- The `while len(tests_tour) >= 2` emission loop of `OptimizeTestOrder.run`. -/
def emit_loop : List OTest → Nat → List ETest
  | cur :: next :: rest, test_count =>
    { id := Int.ofNat (test_count + 1)
      uuid := next.uuid
      scenarios := sorted_dedup next.scenarios
      quantities := next.quantities
      retract := sorted_diff cur.scenarios next.scenarios
      apply := sorted_diff next.scenarios cur.scenarios } ::
      emit_loop (next :: rest) (test_count + 1)
  | _, _ => []

structure RunResult where
  reconfiguration_cost : Int
  observation_cost : Int
  tests : List ETest
deriving DecidableEq

/-- Source `OptimizeTestOrder.run` (with `resort = False`): insert the synthetic
empty configuration, build weights, optionally 2-opt, rotate the tour to the
empty configuration and emit apply/retract-annotated tests.  `none` models the
fatal `ValueError("Initial empty configuration not found in tour")`. -/
def run (opt : Bool) (fuel : Nat) (tests_data : List OTest)
    (scenarios_cost observations_cost : List (String × Int)) : Option RunResult :=
  let tests := empty_test :: tests_data
  let weights := make_weights tests scenarios_cost
  let observation_cost := (tests.map (fun t =>
      (t.quantities.map (fun q => lookupD observations_cost q.1)).sum)).sum
  let tsp := if opt then optimize weights fuel (init_state weights)
    else init_state weights
  let tour := tsp.tour
  (tour.findIdx? (fun tour_idx =>
      (tests.getD tour_idx default).id == some 0)).map fun init_idx =>
    let order := if init_idx = 0 then tour
      else tour.drop init_idx ++ tour.take init_idx
    let tests_tour := order.map (fun k => tests.getD k default)
    { reconfiguration_cost := tsp.cost
      observation_cost := observation_cost
      tests := emit_loop tests_tour 0 }

lemma make_weights_length (tests : List OTest) (cm : List (String × Int)) :
    (make_weights tests cm).length = tests.length := by
  simp [make_weights]

lemma findIdx?_isSome_head (p : Nat → Bool) (l : List Nat) (hne : l ≠ [])
    (hp : p (l.getD 0 0) = true) : (l.findIdx? p).isSome := by
  cases l with
  | nil => exact absurd rfl hne
  | cons a l =>
    have : (a :: l).findIdx? p = if p a then some 0 else (l.findIdx? p).map (· + 1) := by
      simp [List.findIdx?]
    rw [this, if_pos (by exact hp)]
    rfl

lemma emit_loop_length : ∀ (l : List OTest) (c : Nat),
    (emit_loop l c).length = l.length - 1 := by
  intro l
  induction l with
  | nil => intro c; rfl
  | cons x l' ih =>
    intro c
    cases l' with
    | nil => rfl
    | cons y r =>
      rw [emit_loop]
      simp only [List.length_cons]
      rw [ih (c + 1)]
      simp

/-- Full characterization of the emitted test at position `k` (0-based). -/
lemma emit_loop_getD : ∀ (l : List OTest) (c k : Nat), k + 1 < l.length →
    (emit_loop l c).getD k default =
      { id := Int.ofNat (c + k + 1)
        uuid := (l.getD (k + 1) default).uuid
        scenarios := sorted_dedup (l.getD (k + 1) default).scenarios
        quantities := (l.getD (k + 1) default).quantities
        retract := sorted_diff (l.getD k default).scenarios
          (l.getD (k + 1) default).scenarios
        apply := sorted_diff (l.getD (k + 1) default).scenarios
          (l.getD k default).scenarios } := by
  intro l
  induction l with
  | nil => intro c k h; simp at h
  | cons x l' ih =>
    intro c k h
    cases l' with
    | nil => simp at h
    | cons y r =>
      cases k with
      | zero => rw [emit_loop]; rfl
      | succ k' =>
        rw [emit_loop, List.getD_cons_succ,
          ih (c + 1) k' (by simp at h ⊢; omega)]
        simp only [List.getD_cons_succ]
        have hidx : c + 1 + k' + 1 = c + (k' + 1) + 1 := by omega
        rw [hidx]

lemma scan_once_of_dim_le_one (w : List (List Int)) (s : TSPState)
    (h : dimension w ≤ 1) : scan_once w s = (s, false) := by
  unfold scan_once
  have : dimension w - 1 = 0 := by omega
  rw [this]
  rfl

lemma optimize_of_dim_le_one (w : List (List Int)) (fuel : Nat) (s : TSPState)
    (h : dimension w ≤ 1) : optimize w fuel s = s := by
  induction fuel with
  | zero => rfl
  | succ n ih =>
    show (if (scan_once w s).2 then optimize w n (scan_once w s).1
      else (scan_once w s).1) = s
    rw [scan_once_of_dim_le_one w s h]
    simp

/-! ## Claim theorems for the 2-opt optimizer -/

/-- C1: every accepted 2-opt swap (one with `cost_delta < 0`) changes the
running `cost` field by exactly `cost_delta`, and the cost after the swap
still equals the tour length recomputed from scratch; consequently, for any
number of `while found_improvement` passes, the reported cost of
`TSP2Opt.optimize` equals the from-scratch sum of
`distance(tour[i], tour[(i+1) mod n])`. -/
theorem two_opt_swap_and_final_cost (w : List (List Int)) (fuel : Nat) :
    (∀ (s : TSPState) (i j : Nat),
        s.cost = calculate_initial_cost w s.tour →
        s.tour.length = dimension w →
        i + 2 ≤ j → j < dimension w →
        cost_delta w s.tour i j < 0 →
        (accept_swap w s i j).cost = s.cost + cost_delta w s.tour i j ∧
          (accept_swap w s i j).cost =
            calculate_initial_cost w (accept_swap w s i j).tour) ∧
    (optimize w fuel (init_state w)).cost =
      calculate_initial_cost w (optimize w fuel (init_state w)).tour := by
  constructor
  · intro s i j hc hl h2 hj _
    refine ⟨rfl, ?_⟩
    show s.cost + cost_delta w s.tour i j =
      calculate_initial_cost w (swap_edges s.tour i j)
    rw [calculate_initial_cost_swap w s.tour i j h2 (by omega) hl, hc]
  · exact (optimize_inv w fuel (init_state w) (init_state_inv w)).1

theorem two_opt_swap_and_final_cost_witness :
    ((init_state [[0], [10, 0], [1, 5, 0], [5, 1, 10, 0]]).cost =
        calculate_initial_cost [[0], [10, 0], [1, 5, 0], [5, 1, 10, 0]]
          (init_state [[0], [10, 0], [1, 5, 0], [5, 1, 10, 0]]).tour) ∧
      cost_delta [[0], [10, 0], [1, 5, 0], [5, 1, 10, 0]]
          (init_state [[0], [10, 0], [1, 5, 0], [5, 1, 10, 0]]).tour 0 2 < 0 ∧
      ((accept_swap [[0], [10, 0], [1, 5, 0], [5, 1, 10, 0]]
            (init_state [[0], [10, 0], [1, 5, 0], [5, 1, 10, 0]]) 0 2).cost =
          (init_state [[0], [10, 0], [1, 5, 0], [5, 1, 10, 0]]).cost +
            cost_delta [[0], [10, 0], [1, 5, 0], [5, 1, 10, 0]]
              (init_state [[0], [10, 0], [1, 5, 0], [5, 1, 10, 0]]).tour 0 2 ∧
        (accept_swap [[0], [10, 0], [1, 5, 0], [5, 1, 10, 0]]
            (init_state [[0], [10, 0], [1, 5, 0], [5, 1, 10, 0]]) 0 2).cost =
          calculate_initial_cost [[0], [10, 0], [1, 5, 0], [5, 1, 10, 0]]
            (accept_swap [[0], [10, 0], [1, 5, 0], [5, 1, 10, 0]]
              (init_state [[0], [10, 0], [1, 5, 0], [5, 1, 10, 0]]) 0 2).tour) :=
  ⟨rfl, by decide,
    (two_opt_swap_and_final_cost [[0], [10, 0], [1, 5, 0], [5, 1, 10, 0]] 0).1
      (init_state [[0], [10, 0], [1, 5, 0], [5, 1, 10, 0]]) 0 2 rfl (by decide)
      (by decide) (by decide) (by decide)⟩

/-- C2: the synthetic empty configuration (inserted at list index 0, so tour
position 0) is always found when rotating: `swap_edges` only reverses
segments starting at index `i + 1 ≥ 1`, so tour position 0 is fixed and the
fatal "Initial empty configuration not found in tour" branch of
`OptimizeTestOrder.run` is unreachable. -/
theorem empty_config_always_in_tour :
    (∀ (t : List Nat) (i j : Nat), (swap_edges t i j).getD 0 0 = t.getD 0 0) ∧
    ∀ (opt : Bool) (fuel : Nat) (tests_data : List OTest)
      (sc oc : List (String × Int)), (run opt fuel tests_data sc oc).isSome := by
  constructor
  · intro t i j
    exact swap_edges_getD_zero' t i j
  · intro opt fuel tests_data sc oc
    simp only [run, Option.isSome_map']
    set w := make_weights (empty_test :: tests_data) sc with hw
    have hd : dimension w = tests_data.length + 1 := by
      rw [hw, dimension, make_weights_length, List.length_cons]
    have hhead : (if opt then optimize w fuel (init_state w)
        else init_state w).tour.getD 0 0 = 0 := by
      by_cases hopt : opt
      · rw [if_pos hopt, optimize_head]
        exact range_getD_zero _
      · rw [if_neg hopt]
        exact range_getD_zero _
    have hlen : (if opt then optimize w fuel (init_state w)
        else init_state w).tour.length = dimension w := by
      by_cases hopt : opt
      · rw [if_pos hopt]
        exact optimize_length w fuel _ (init_state_inv w)
      · rw [if_neg hopt]
        exact List.length_range _
    apply findIdx?_isSome_head
    · intro hnil
      rw [hnil] at hlen
      rw [hd] at hlen
      simp at hlen
    · rw [hhead]
      show (((empty_test :: tests_data).getD 0 default).id == some 0) = true
      show ((empty_test).id == some 0) = true
      decide

/-- Concrete tour nodes used to exercise the emission loop. -/
def otest_empty : OTest :=
  { id := some 0, uuid := "", scenarios := [], quantities := [] }

def otest_unsorted : OTest :=
  { id := none, uuid := "u", scenarios := ["b", "a"], quantities := [] }

def otest_single : OTest :=
  { id := none, uuid := "u", scenarios := ["a"], quantities := [("q", ["r"])] }

/-- C5 counterexample: the `scenarios` field of an emitted test is not copied
unchanged from the successor tour node -- it is rewritten to the sorted,
deduplicated scenario set (here `["b", "a"]` becomes `["a", "b"]`). -/
theorem emission_scenarios_field_rewritten :
    ((emit_loop [otest_empty, otest_unsorted] 0).getD 0 default).scenarios ≠
      otest_unsorted.scenarios := by
  decide

/-- C5 (amended): walking a rotated tour of `n` nodes emits exactly `n - 1`
tests; the test at 0-based position `k` has `id = k + 1`, `apply` and
`retract` the sorted scenario-set differences between nodes `k + 1` and `k`,
`uuid` and `quantities` copied unchanged from node `k + 1`, and `scenarios`
rewritten to the sorted deduplicated scenario set of node `k + 1` (equal to
the original field only when that field is already sorted and
duplicate-free). -/
theorem optimizer_emission (l : List OTest) (k : Nat) (h : k + 1 < l.length) :
    (emit_loop l 0).length = l.length - 1 ∧
    (emit_loop l 0).getD k default =
      { id := Int.ofNat (k + 1)
        uuid := (l.getD (k + 1) default).uuid
        scenarios := sorted_dedup (l.getD (k + 1) default).scenarios
        quantities := (l.getD (k + 1) default).quantities
        retract := sorted_diff (l.getD k default).scenarios
          (l.getD (k + 1) default).scenarios
        apply := sorted_diff (l.getD (k + 1) default).scenarios
          (l.getD k default).scenarios } := by
  refine ⟨emit_loop_length l 0, ?_⟩
  rw [emit_loop_getD l 0 k h]
  have hk : 0 + k + 1 = k + 1 := by omega
  rw [hk]

theorem optimizer_emission_witness :
    0 + 1 < ([otest_empty, otest_single] : List OTest).length ∧
    ((emit_loop [otest_empty, otest_single] 0).length =
        ([otest_empty, otest_single] : List OTest).length - 1 ∧
      (emit_loop [otest_empty, otest_single] 0).getD 0 default =
        { id := Int.ofNat (0 + 1)
          uuid := (([otest_empty, otest_single] : List OTest).getD (0 + 1) default).uuid
          scenarios := sorted_dedup
            (([otest_empty, otest_single] : List OTest).getD (0 + 1) default).scenarios
          quantities :=
            (([otest_empty, otest_single] : List OTest).getD (0 + 1) default).quantities
          retract := sorted_diff
            (([otest_empty, otest_single] : List OTest).getD 0 default).scenarios
            (([otest_empty, otest_single] : List OTest).getD (0 + 1) default).scenarios
          apply := sorted_diff
            (([otest_empty, otest_single] : List OTest).getD (0 + 1) default).scenarios
            (([otest_empty, otest_single] : List OTest).getD 0 default).scenarios }) :=
  ⟨by decide, optimizer_emission [otest_empty, otest_single] 0 (by decide)⟩

/-- Running `run` on the empty pruned test list: tour contains only the synthetic
empty configuration, reconfiguration cost 0, no emitted tests. -/
lemma run_empty (opt : Bool) (fuel : Nat) (sc oc : List (String × Int)) :
    run opt fuel [] sc oc =
      some { reconfiguration_cost := 0, observation_cost := 0, tests := [] } := by
  have hw : make_weights [empty_test] sc = [[0]] := by
    have h1 : List.range 1 = [0] := rfl
    simp [make_weights, empty_test, h1]
  have hinit : init_state [[0]] = { tour := [0], cost := 0 } := by decide
  have hopt : (if opt then optimize [[0]] fuel (init_state [[0]])
      else init_state [[0]]) = { tour := [0], cost := 0 } := by
    by_cases h : opt
    · rw [if_pos h, optimize_of_dim_le_one [[0]] fuel _ (by decide)]
      exact hinit
    · rw [if_neg h]
      exact hinit
  simp only [run, hw, hopt]
  have hfind : (List.findIdx? (fun tour_idx =>
      (([empty_test] : List OTest).getD tour_idx default).id == some 0) [0]) = some 0 := by
    decide
  rw [hfind]
  rfl

/-! ## Association-list model of Python dicts -/

/-- Python `m[k]` for a dict: the first (hence unique) stored value for the key. -/
def alookup {κ β : Type} [DecidableEq κ] : List (κ × β) → κ → Option β
  | [], _ => none
  | (k', v) :: rest, k => if k' = k then some v else alookup rest k

/-- Python `m[k] = v`: overwrite the binding if present, else append it. -/
def aset {κ β : Type} [DecidableEq κ] : List (κ × β) → κ → β → List (κ × β)
  | [], k, v => [(k, v)]
  | (k', v') :: rest, k, v =>
    if k' = k then (k, v) :: rest else (k', v') :: aset rest k v

/-- Python `defaultdict` read: stored value or the default. -/
def dget {κ β : Type} [DecidableEq κ] (m : List (κ × β)) (k : κ) (d : β) : β :=
  (alookup m k).getD d

lemma alookup_aset {κ β : Type} [DecidableEq κ] :
    ∀ (m : List (κ × β)) (k : κ) (v : β) (k' : κ),
    alookup (aset m k v) k' = if k' = k then some v else alookup m k' := by
  intro m
  induction m with
  | nil =>
    intro k v k'
    by_cases h : k' = k
    · rw [if_pos h]
      show (if k = k' then some v else none) = some v
      rw [if_pos h.symm]
    · rw [if_neg h]
      show (if k = k' then some v else none) = none
      rw [if_neg (fun hh => h hh.symm)]
  | cons p rest ih =>
    intro k v k'
    obtain ⟨pk, pv⟩ := p
    by_cases hpk : pk = k
    · rw [show aset ((pk, pv) :: rest) k v = (k, v) :: rest from by
        rw [aset, if_pos hpk]]
      by_cases h : k' = k
      · rw [if_pos h]
        show (if k = k' then some v else alookup rest k') = some v
        rw [if_pos h.symm]
      · rw [if_neg h]
        show (if k = k' then some v else alookup rest k') = alookup ((pk, pv) :: rest) k'
        rw [if_neg (fun hh => h hh.symm)]
        show alookup rest k' = if pk = k' then some pv else alookup rest k'
        rw [if_neg (fun hh => h (hpk ▸ hh).symm)]
    · rw [show aset ((pk, pv) :: rest) k v = (pk, pv) :: aset rest k v from by
        rw [aset, if_neg hpk]]
      show (if pk = k' then some pv else alookup (aset rest k v) k') =
        if k' = k then some v else alookup ((pk, pv) :: rest) k'
      by_cases hpk' : pk = k'
      · rw [if_pos hpk', if_neg (fun hh => hpk (hpk' ▸ hh : pk = k))]
        show some pv = if pk = k' then some pv else alookup rest k'
        rw [if_pos hpk']
      · rw [if_neg hpk', ih k v k']
        by_cases h : k' = k
        · rw [if_pos h, if_pos h]
        · rw [if_neg h, if_neg h]
          show alookup rest k' = if pk = k' then some pv else alookup rest k'
          rw [if_neg hpk']

/-! ## Embedding of `generate_tests.py` -/

/-- A JSON field of a SPARQL binding: the key may be missing (access raises
`KeyError`), be JSON `null` (Python `None`), or hold a string. -/
inductive JField where
  | missing : JField
  | null : JField
  | str (s : String) : JField
deriving DecidableEq

/-- One record of `data["results"]["bindings"]`. -/
structure ReqRecord where
  reqName : JField
  quaID : JField
  scenarios : JField
deriving DecidableEq

/-- Character-level splitter underlying `value.split(",")`. -/
def split_go : List Char → List Char → List String
  | [], acc => [String.mk acc.reverse]
  | c :: cs, acc =>
    if c = ',' then String.mk acc.reverse :: split_go cs []
    else split_go cs (c :: acc)

/-- Python's `s.split(",")`. -/
def split_on_commas (s : String) : List String := split_go s.data []

/-- Python `rh[key]["value"]`: `none` models a raised `KeyError`. -/
def jval : JField → Option (Option String)
  | .missing => none
  | .null => some none
  | .str s => some (some s)

/-- The four indexes built by the first loop of `generate_tests`.  Scenario
sets are kept as the raw split lists (first occurrence of each distinct set);
dict keys are their underlying finite sets. -/
structure GenState where
  scenario_sets_list : List (List String)
  rqts_by_ss : List (Finset String × List String)
  rqts_by_qty : List (String × List String)
  qty_by_rqt : List (String × String)
deriving DecidableEq

def init_gen_state : GenState := ⟨[], [], [], []⟩

/-- One iteration of the `for rh in requirements` loop: `none` models a
raised exception (missing key, or `None.split`). -/
def gen_step (st : GenState) (rh : ReqRecord) : Option GenState :=
  match jval rh.reqName with
  | none => none
  | some req? =>
    match jval rh.quaID with
    | none => none
    | some qua? =>
      match req?, qua? with
      | some req_id, some quantity =>
        match jval rh.scenarios with
        | none => none
        | some none => none
        | some (some sval) =>
          -- the four index updates touch disjoint fields, so the sequential
          -- mutations of the source are one record update
          let scenarios := split_on_commas sval
          let ss : Finset String := scenarios.toFinset
          let cur := dget st.rqts_by_ss ss []
          let qcur := dget st.rqts_by_qty quantity []
          some { scenario_sets_list :=
                  if st.scenario_sets_list.any (fun l => l.toFinset = ss)
                  then st.scenario_sets_list
                  else st.scenario_sets_list ++ [scenarios]
                 rqts_by_ss :=
                  if req_id ∈ cur then st.rqts_by_ss
                  else aset st.rqts_by_ss ss (cur ++ [req_id])
                 rqts_by_qty := (aset st.rqts_by_qty quantity
                  (if req_id ∈ qcur then qcur else qcur ++ [req_id]))
                 qty_by_rqt := aset st.qty_by_rqt req_id quantity }
      | _, _ => some st

def gen_fold : GenState → List ReqRecord → Option GenState
  | st, [] => some st
  | st, rh :: rest =>
    match gen_step st rh with
    | none => none
    | some st' => gen_fold st' rest

/-- A generated test object. -/
structure GTest where
  uuid : String
  config_digest : String
  scenarios : List String
  quantities : List (String × List String)
  requirements_direct : List String
  quantities_direct : List String
deriving DecidableEq, Inhabited

/-- The duplicate-free requirement list accumulated from the direct
requirements plus those of every one-hop successor (all strict subsets). -/
def rqmts_list (st : GenState) (sl : List String) : List String :=
  (st.scenario_sets_list.filter
      (fun v => v.toFinset ⊂ sl.toFinset)).foldl
    (fun acc v =>
      acc ++ (dget st.rqts_by_ss v.toFinset []).filter (fun r => !(acc.contains r)))
    (dget st.rqts_by_ss sl.toFinset [])

/-- The body of the `for ss in scenario_sets_list` generation loop;
`uuid.uuid4()` and the MD5 `config_digest` are supplied externally. -/
def make_test (uuids : Nat → String) (digest : List String → String)
    (st : GenState) (idx : Nat) (sl : List String) : GTest :=
  let rqmts := rqmts_list st sl
  let quantities := sort_strings
    (rqmts.filterMap (fun r => alookup st.qty_by_rqt r)).dedup
  let reqs_for := fun (q : String) =>
    sort_strings ((dget st.rqts_by_qty q []).filter (fun r => rqmts.contains r))
  { uuid := uuids idx
    config_digest := digest (sorted_dedup sl)
    scenarios := sorted_dedup sl
    quantities := quantities.map (fun q => (q, reqs_for q))
    requirements_direct := dget st.rqts_by_ss sl.toFinset []
    quantities_direct := quantities.filter (fun q =>
      (reqs_for q).any (fun r => (dget st.rqts_by_ss sl.toFinset []).contains r)) }

/-- Source `generate_tests`: build the indexes, then one test per scenario set in
insertion order.  `none` models a raised exception. -/
def generate_tests (uuids : Nat → String) (digest : List String → String)
    (data : List ReqRecord) : Option (List GTest) :=
  match gen_fold init_gen_state data with
  | none => none
  | some st =>
    some ((List.range st.scenario_sets_list.length).map
      (fun k => make_test uuids digest st k (st.scenario_sets_list.getD k [])))

/-- Union of a list of string sets. -/
def union_over {α : Type} (f : α → Finset String) : List α → Finset String
  | [] => ∅
  | x :: l => f x ∪ union_over f l

/-- The total requirement set of a generated test: the union of the
requirement lists of all its quantity entries. -/
def total_requirements (t : GTest) : Finset String :=
  union_over (fun qe => qe.2.toFinset) t.quantities

lemma mem_insert_sorted (a x : String) :
    ∀ (l : List String), x ∈ insert_sorted a l ↔ x = a ∨ x ∈ l := by
  intro l
  induction l with
  | nil => simp [insert_sorted]
  | cons b l ih =>
    rw [insert_sorted]
    by_cases h : str_leb a b
    · rw [if_pos h]
      simp
    · rw [if_neg h]
      simp only [List.mem_cons, ih]
      tauto

lemma mem_sort_strings (x : String) :
    ∀ (l : List String), x ∈ sort_strings l ↔ x ∈ l := by
  intro l
  induction l with
  | nil => simp [sort_strings]
  | cons a l ih =>
    rw [sort_strings, mem_insert_sorted, ih]
    simp

lemma toFinset_sort_strings (l : List String) :
    (sort_strings l).toFinset = l.toFinset := by
  apply Finset.ext
  intro x
  rw [List.mem_toFinset, List.mem_toFinset, mem_sort_strings]

lemma toFinset_sorted_dedup (l : List String) :
    (sorted_dedup l).toFinset = l.toFinset := by
  rw [sorted_dedup, toFinset_sort_strings]
  apply Finset.ext
  intro x
  rw [List.mem_toFinset, List.mem_toFinset, List.mem_dedup]

lemma mem_union_over {α : Type} (f : α → Finset String) (x : String) :
    ∀ (l : List α), x ∈ union_over f l ↔ ∃ a ∈ l, x ∈ f a := by
  intro l
  induction l with
  | nil => simp [union_over]
  | cons a l ih =>
    rw [union_over, Finset.mem_union, ih]
    simp

lemma union_over_map {α β : Type} (f : β → Finset String) (g : α → β)
    (l : List α) : union_over f (l.map g) = union_over (fun a => f (g a)) l := by
  induction l with
  | nil => rfl
  | cons a l ih => rw [List.map_cons, union_over, union_over, ih]

lemma getD_eq_getElem' {α : Type} (l : List α) (d : α) (k : Nat)
    (h : k < l.length) : l.getD k d = l[k] := by
  rw [List.getD_eq_getElem?_getD, List.getElem?_eq_getElem h]
  rfl

/-- The accumulating union in `rqmts_list`, as a set. -/
lemma foldl_union_toFinset {α : Type} (f : α → List String) :
    ∀ (ls : List α) (acc : List String),
    (ls.foldl (fun acc v => acc ++ (f v).filter (fun r => !(acc.contains r)))
        acc).toFinset =
      acc.toFinset ∪ union_over (fun v => (f v).toFinset) ls := by
  intro ls
  induction ls with
  | nil =>
    intro acc
    simp [union_over]
  | cons v ls ih =>
    intro acc
    rw [List.foldl_cons, ih, union_over]
    have hstep : (acc ++ (f v).filter (fun r => !(acc.contains r))).toFinset =
        acc.toFinset ∪ (f v).toFinset := by
      apply Finset.ext
      intro x
      simp only [List.toFinset_append, Finset.mem_union, List.mem_toFinset,
        List.mem_filter]
      constructor
      · rintro (hx | ⟨hx, _⟩)
        · exact Or.inl hx
        · exact Or.inr hx
      · rintro (hx | hx)
        · exact Or.inl hx
        · by_cases ha : x ∈ acc
          · exact Or.inl ha
          · refine Or.inr ⟨hx, ?_⟩
            simp [ha]
    rw [hstep, Finset.union_assoc]

/-- The list `rqmts_list` computes exactly direct ∪ (union over all strict-subset
scenario sets of their direct requirement lists). -/
lemma rqmts_list_toFinset (st : GenState) (sl : List String) :
    (rqmts_list st sl).toFinset =
      (dget st.rqts_by_ss sl.toFinset []).toFinset ∪
        union_over (fun v => (dget st.rqts_by_ss v.toFinset []).toFinset)
          (st.scenario_sets_list.filter (fun v => v.toFinset ⊂ sl.toFinset)) := by
  rw [rqmts_list, foldl_union_toFinset]

/-- Invariants tying the three requirement indexes together: every
requirement stored under any scenario set has a quantity, and
`qty_by_rqt[r] = q` implies `r ∈ rqts_by_qty[q]`. -/
def gen_inv (st : GenState) : Prop :=
  (∀ (key : Finset String) (r : String), r ∈ dget st.rqts_by_ss key [] →
    (alookup st.qty_by_rqt r).isSome) ∧
  (∀ (r q : String), alookup st.qty_by_rqt r = some q →
    r ∈ dget st.rqts_by_qty q [])

lemma init_gen_inv : gen_inv init_gen_state := by
  constructor
  · intro key r hr
    simp [init_gen_state, dget, alookup] at hr
  · intro r q hq
    simp [init_gen_state, alookup] at hq

lemma gen_step_inv (st : GenState) (rh : ReqRecord) (st' : GenState)
    (h : gen_step st rh = some st') (hinv : gen_inv st) : gen_inv st' := by
  obtain ⟨rn, rq, rs⟩ := rh
  cases rn with
  | missing => simp [gen_step, jval] at h
  | null =>
    cases rq with
    | missing => simp [gen_step, jval] at h
    | null =>
      simp [gen_step, jval] at h
      rw [← h]; exact hinv
    | str q0 =>
      simp [gen_step, jval] at h
      rw [← h]; exact hinv
  | str r0 =>
    cases rq with
    | missing => simp [gen_step, jval] at h
    | null =>
      simp [gen_step, jval] at h
      rw [← h]; exact hinv
    | str q0 =>
      cases rs with
      | missing => simp [gen_step, jval] at h
      | null => simp [gen_step, jval] at h
      | str sval =>
        simp only [gen_step, jval] at h
        rw [Option.some_inj] at h
        rw [← h]
        constructor
        · intro key r hr
          show (alookup (aset st.qty_by_rqt r0 q0) r).isSome
          rw [alookup_aset]
          by_cases hr0 : r = r0
          · rw [if_pos hr0]; rfl
          · rw [if_neg hr0]
            -- r came from the (possibly extended) rqts_by_ss
            have hr' : r ∈ dget st.rqts_by_ss key [] ∨
                (key = (split_on_commas sval).toFinset ∧
                  r ∈ dget st.rqts_by_ss ((split_on_commas sval).toFinset) [] ++ [r0]) := by
              revert hr
              show r ∈ dget (if r0 ∈ dget st.rqts_by_ss ((split_on_commas sval).toFinset) []
                  then st.rqts_by_ss
                  else aset st.rqts_by_ss ((split_on_commas sval).toFinset)
                    (dget st.rqts_by_ss ((split_on_commas sval).toFinset) [] ++ [r0]))
                  key [] → _
              by_cases hc : r0 ∈ dget st.rqts_by_ss ((split_on_commas sval).toFinset) []
              · rw [if_pos hc]
                exact Or.inl
              · rw [if_neg hc]
                intro hr
                rw [dget, alookup_aset] at hr
                by_cases hkey : key = (split_on_commas sval).toFinset
                · rw [if_pos hkey] at hr
                  exact Or.inr ⟨hkey, by simpa using hr⟩
                · rw [if_neg hkey] at hr
                  exact Or.inl hr
            rcases hr' with hr' | ⟨_, hr'⟩
            · exact hinv.1 key r hr'
            · rw [List.mem_append] at hr'
              rcases hr' with hr' | hr'
              · exact hinv.1 _ r hr'
              · simp at hr'
                exact absurd hr' hr0
        · intro r q hq
          dsimp only at hq ⊢
          rw [alookup_aset] at hq
          rw [dget, alookup_aset]
          by_cases hr0 : r = r0
          · rw [if_pos hr0] at hq
            have hq0 : q = q0 := by
              injection hq with hq
              exact hq.symm
            rw [if_pos hq0]
            simp only [Option.getD_some]
            by_cases hc : r0 ∈ dget st.rqts_by_qty q0 []
            · rw [if_pos hc, hr0]
              exact hc
            · rw [if_neg hc, hr0]
              simp
          · rw [if_neg hr0] at hq
            have hold := hinv.2 r q hq
            by_cases hq0 : q = q0
            · rw [if_pos hq0]
              simp only [Option.getD_some]
              rw [hq0] at hold
              by_cases hc : r0 ∈ dget st.rqts_by_qty q0 []
              · rw [if_pos hc]
                exact hold
              · rw [if_neg hc]
                exact List.mem_append_left _ hold
            · rw [if_neg hq0]
              exact hold

lemma gen_fold_inv : ∀ (data : List ReqRecord) (st st' : GenState),
    gen_fold st data = some st' → gen_inv st → gen_inv st' := by
  intro data
  induction data with
  | nil =>
    intro st st' h hinv
    rw [gen_fold, Option.some_inj] at h
    rw [← h]
    exact hinv
  | cons rh rest ih =>
    intro st st' h hinv
    rw [gen_fold] at h
    cases hstep : gen_step st rh with
    | none => rw [hstep] at h; exact absurd h (by simp)
    | some st1 =>
      rw [hstep] at h
      exact ih st1 st' h (gen_step_inv st rh st1 hstep hinv)

/-- Under the index invariants, the union of the quantity-entry requirement
lists of a generated test is exactly its accumulated requirement set. -/
lemma make_test_total (st : GenState) (hinv : gen_inv st) (us : Nat → String)
    (dg : List String → String) (idx : Nat) (sl : List String) :
    total_requirements (make_test us dg st idx sl) =
      (rqmts_list st sl).toFinset := by
  rw [total_requirements, make_test]
  dsimp only
  rw [union_over_map]
  apply Finset.ext
  intro x
  rw [mem_union_over, List.mem_toFinset]
  constructor
  · rintro ⟨q, _, hx⟩
    rw [List.mem_toFinset, mem_sort_strings, List.mem_filter] at hx
    have := hx.2
    simpa using this
  · intro hx
    -- x is stored under some scenario-set key, so it has a quantity
    have hkey : ∃ key, x ∈ dget st.rqts_by_ss key [] := by
      have hx' : x ∈ (rqmts_list st sl).toFinset := by
        rw [List.mem_toFinset]; exact hx
      rw [rqmts_list_toFinset, Finset.mem_union] at hx'
      rcases hx' with hx' | hx'
      · exact ⟨sl.toFinset, by simpa using hx'⟩
      · rw [mem_union_over] at hx'
        obtain ⟨v, _, hv⟩ := hx'
        exact ⟨v.toFinset, by simpa using hv⟩
    obtain ⟨key, hkeymem⟩ := hkey
    obtain ⟨q0, hq0⟩ := Option.isSome_iff_exists.mp (hinv.1 key x hkeymem)
    refine ⟨q0, ?_, ?_⟩
    · rw [mem_sort_strings, List.mem_dedup, List.mem_filterMap]
      exact ⟨x, hx, hq0⟩
    · rw [List.mem_toFinset, mem_sort_strings, List.mem_filter]
      refine ⟨hinv.2 x q0 hq0, ?_⟩
      simpa using hx

lemma make_test_scenarios (us : Nat → String) (dg : List String → String)
    (st : GenState) (m : Nat) (sl : List String) :
    (make_test us dg st m sl).scenarios.toFinset = sl.toFinset := by
  rw [make_test]
  exact toFinset_sorted_dedup sl

lemma make_test_direct (us : Nat → String) (dg : List String → String)
    (st : GenState) (m : Nat) (sl : List String) :
    (make_test us dg st m sl).requirements_direct =
      dget st.rqts_by_ss sl.toFinset [] := rfl

/-- C3: for every generated test, the union of the requirement lists of its
quantity entries (its total requirement set) equals its direct requirements
unioned with the direct requirements of every strict-subset configuration in
the generated universe; in particular every direct requirement is in the
total set. -/
theorem generated_total_requirements (us : Nat → String)
    (dg : List String → String) (data : List ReqRecord) (tests : List GTest)
    (h : generate_tests us dg data = some tests) (t : GTest) (ht : t ∈ tests) :
    total_requirements t =
      t.requirements_direct.toFinset ∪
        union_over (fun u => u.requirements_direct.toFinset)
          (tests.filter (fun u => u.scenarios.toFinset ⊂ t.scenarios.toFinset)) ∧
    t.requirements_direct.toFinset ⊆ total_requirements t := by
  rw [generate_tests] at h
  cases hfold : gen_fold init_gen_state data with
  | none =>
    rw [hfold] at h
    exact absurd h (by simp)
  | some st =>
    rw [hfold, Option.some_inj] at h
    have hinv := gen_fold_inv data init_gen_state st hfold init_gen_inv
    subst h
    obtain ⟨k, hk, ht⟩ := List.mem_map.mp ht
    rw [List.mem_range] at hk
    subst ht
    have h1 : total_requirements
        (make_test us dg st k (st.scenario_sets_list.getD k [])) =
      (make_test us dg st k
          (st.scenario_sets_list.getD k [])).requirements_direct.toFinset ∪
        union_over (fun u => u.requirements_direct.toFinset)
          (((List.range st.scenario_sets_list.length).map
              (fun m => make_test us dg st m (st.scenario_sets_list.getD m []))).filter
            (fun u => u.scenarios.toFinset ⊂
              (make_test us dg st k
                (st.scenario_sets_list.getD k [])).scenarios.toFinset)) := by
      rw [make_test_total st hinv, rqmts_list_toFinset, make_test_direct,
        List.filter_map, union_over_map]
      congr 1
      apply Finset.ext
      intro x
      rw [mem_union_over, mem_union_over]
      constructor
      · rintro ⟨v, hv, hxv⟩
        rw [List.mem_filter] at hv
        obtain ⟨hvmem, hvsub⟩ := hv
        obtain ⟨k', hk', hvk⟩ := List.mem_iff_getElem.mp hvmem
        refine ⟨k', ?_, ?_⟩
        · rw [List.mem_filter]
          refine ⟨List.mem_range.mpr hk', ?_⟩
          show decide ((make_test us dg st k' (st.scenario_sets_list.getD k' [])).scenarios.toFinset ⊂
            (make_test us dg st k (st.scenario_sets_list.getD k [])).scenarios.toFinset) = true
          rw [decide_eq_true_iff, make_test_scenarios, make_test_scenarios,
            getD_eq_getElem' _ _ _ hk', hvk]
          simpa using hvsub
        · show x ∈ (make_test us dg st k'
            (st.scenario_sets_list.getD k' [])).requirements_direct.toFinset
          rw [make_test_direct, getD_eq_getElem' _ _ _ hk', hvk]
          exact hxv
      · rintro ⟨k', hk', hxk⟩
        rw [List.mem_filter, List.mem_range] at hk'
        obtain ⟨hk'n, hsub⟩ := hk'
        refine ⟨st.scenario_sets_list.getD k' [], ?_, ?_⟩
        · rw [List.mem_filter]
          constructor
          · rw [getD_eq_getElem' _ _ _ hk'n]
            exact List.getElem_mem _
          · show decide ((st.scenario_sets_list.getD k' []).toFinset ⊂
              (st.scenario_sets_list.getD k [] : List String).toFinset) = true
            rw [decide_eq_true_iff]
            have hsub' := of_decide_eq_true hsub
            rw [make_test_scenarios, make_test_scenarios] at hsub'
            exact hsub'
        · show x ∈ (dget st.rqts_by_ss
            ((st.scenario_sets_list.getD k' []).toFinset) []).toFinset
          rw [show (make_test us dg st k'
              (st.scenario_sets_list.getD k' [])).requirements_direct =
            dget st.rqts_by_ss ((st.scenario_sets_list.getD k' []).toFinset) []
            from rfl] at hxk
          exact hxk
    refine ⟨h1, ?_⟩
    rw [h1]
    exact Finset.subset_union_left

/-- The single test generated from the one-record witness input. -/
def gtest_single : GTest :=
  { uuid := "u", config_digest := "d", scenarios := ["s1"]
    quantities := [("q1", ["r1"])], requirements_direct := ["r1"]
    quantities_direct := ["q1"] }

theorem generated_total_requirements_witness :
    generate_tests (fun _ => "u") (fun _ => "d")
        [⟨JField.str "r1", JField.str "q1", JField.str "s1"⟩] =
      some [gtest_single] ∧
    (total_requirements gtest_single =
      gtest_single.requirements_direct.toFinset ∪
        union_over (fun u => u.requirements_direct.toFinset)
          ([gtest_single].filter
            (fun u => u.scenarios.toFinset ⊂ gtest_single.scenarios.toFinset)) ∧
      gtest_single.requirements_direct.toFinset ⊆ total_requirements gtest_single) :=
  ⟨by decide,
    generated_total_requirements (fun _ => "u") (fun _ => "d")
      [⟨JField.str "r1", JField.str "q1", JField.str "s1"⟩] [gtest_single]
      (by decide) gtest_single (by simp)⟩

/-! ## C7: handling of malformed requirement records -/

lemma gen_step_skip (st : GenState) (rec : ReqRecord)
    (h1 : rec.reqName ≠ JField.missing) (h2 : rec.quaID ≠ JField.missing)
    (h3 : rec.reqName = JField.null ∨ rec.quaID = JField.null) :
    gen_step st rec = some st := by
  obtain ⟨rn, rq, rs⟩ := rec
  cases rn <;> cases rq <;> simp_all [gen_step, jval]

lemma gen_step_fail_req (st : GenState) (rec : ReqRecord)
    (h : rec.reqName = JField.missing) : gen_step st rec = none := by
  obtain ⟨rn, rq, rs⟩ := rec
  cases rn with
  | missing => simp [gen_step, jval]
  | null => simp at h
  | str s => simp at h

lemma gen_step_fail_qua (st : GenState) (rec : ReqRecord)
    (h : rec.quaID = JField.missing) : gen_step st rec = none := by
  obtain ⟨rn, rq, rs⟩ := rec
  cases rn <;> cases rq <;> simp_all [gen_step, jval]

lemma gen_step_fail_scen (st : GenState) (rec : ReqRecord)
    (h : rec.scenarios = JField.missing ∨ rec.scenarios = JField.null)
    (hr : ∃ r, rec.reqName = JField.str r)
    (hq : ∃ q, rec.quaID = JField.str q) : gen_step st rec = none := by
  obtain ⟨rn, rq, rs⟩ := rec
  obtain ⟨r0, hr⟩ := hr
  obtain ⟨q0, hq⟩ := hq
  simp only at hr hq
  subst hr
  subst hq
  cases rs with
  | missing => simp [gen_step, jval]
  | null => simp [gen_step, jval]
  | str s => simp_all

lemma gen_fold_append : ∀ (l₁ l₂ : List ReqRecord) (st : GenState),
    gen_fold st (l₁ ++ l₂) =
      match gen_fold st l₁ with
      | none => none
      | some st' => gen_fold st' l₂ := by
  intro l₁
  induction l₁ with
  | nil => intro l₂ st; rfl
  | cons rh rest ih =>
    intro l₂ st
    rw [List.cons_append, gen_fold, gen_fold]
    cases gen_step st rh with
    | none => rfl
    | some st1 => exact ih l₂ st1

/-- C7 counterexample: a record whose `scenarios` value is JSON null is not
skipped -- `None.split(",")` raises, so `generate_tests` fails. -/
theorem generator_null_scenarios_raises :
    generate_tests (fun _ => "u") (fun _ => "d")
      [⟨JField.str "r", JField.str "q", JField.null⟩] = none := by
  decide

/-- C7 (amended): a record whose `reqName` and `quaID` keys are both present
and at least one of whose values is null is skipped silently (it contributes
nothing and processing continues); but a record with a missing `reqName` or
`quaID` key raises (`KeyError`), and a record with string `reqName`/`quaID`
whose `scenarios` field is missing or null also raises. -/
theorem generator_malformed_fields (us : Nat → String)
    (dg : List String → String) (pre post : List ReqRecord) (rec : ReqRecord) :
    (rec.reqName ≠ JField.missing → rec.quaID ≠ JField.missing →
      (rec.reqName = JField.null ∨ rec.quaID = JField.null) →
      generate_tests us dg (pre ++ rec :: post) =
        generate_tests us dg (pre ++ post)) ∧
    (rec.reqName = JField.missing →
      generate_tests us dg (pre ++ rec :: post) = none) ∧
    (rec.quaID = JField.missing →
      generate_tests us dg (pre ++ rec :: post) = none) ∧
    ((rec.scenarios = JField.missing ∨ rec.scenarios = JField.null) →
      (∃ r, rec.reqName = JField.str r) → (∃ q, rec.quaID = JField.str q) →
      generate_tests us dg (pre ++ rec :: post) = none) := by
  refine ⟨?_, ?_, ?_, ?_⟩
  · intro h1 h2 h3
    simp only [generate_tests, gen_fold_append]
    cases gen_fold init_gen_state pre with
    | none => rfl
    | some st =>
      have hs : gen_fold st (rec :: post) = gen_fold st post := by
        rw [gen_fold, gen_step_skip st rec h1 h2 h3]
      dsimp only
      rw [hs]
  · intro h
    simp only [generate_tests, gen_fold_append]
    cases gen_fold init_gen_state pre with
    | none => rfl
    | some st =>
      have hs : gen_fold st (rec :: post) = none := by
        rw [gen_fold, gen_step_fail_req st rec h]
      dsimp only
      rw [hs]
  · intro h
    simp only [generate_tests, gen_fold_append]
    cases gen_fold init_gen_state pre with
    | none => rfl
    | some st =>
      have hs : gen_fold st (rec :: post) = none := by
        rw [gen_fold, gen_step_fail_qua st rec h]
      dsimp only
      rw [hs]
  · intro h hr hq
    simp only [generate_tests, gen_fold_append]
    cases gen_fold init_gen_state pre with
    | none => rfl
    | some st =>
      have hs : gen_fold st (rec :: post) = none := by
        rw [gen_fold, gen_step_fail_scen st rec h hr hq]
      dsimp only
      rw [hs]

theorem generator_malformed_fields_witness :
    ((⟨JField.null, JField.str "q", JField.str "s"⟩ : ReqRecord).reqName ≠
        JField.missing ∧
      (⟨JField.null, JField.str "q", JField.str "s"⟩ : ReqRecord).quaID ≠
        JField.missing ∧
      (⟨JField.null, JField.str "q", JField.str "s"⟩ : ReqRecord).reqName =
        JField.null) ∧
    generate_tests (fun _ => "u") (fun _ => "d")
        ([] ++ (⟨JField.null, JField.str "q", JField.str "s"⟩ : ReqRecord) :: []) =
      generate_tests (fun _ => "u") (fun _ => "d") ([] ++ []) :=
  ⟨⟨by decide, by decide, rfl⟩,
    (generator_malformed_fields (fun _ => "u") (fun _ => "d") [] []
      ⟨JField.null, JField.str "q", JField.str "s"⟩).1 (by decide) (by decide)
      (Or.inl rfl)⟩

/-- C8: an empty requirements list generates an empty test list, and running
the optimizer on an empty pruned test list yields a tour with only the
synthetic empty configuration: reconfiguration cost 0 and zero emitted
tests. -/
theorem empty_universe_degenerate (us : Nat → String)
    (dg : List String → String) :
    generate_tests us dg [] = some [] ∧
    ∀ (opt : Bool) (fuel : Nat) (sc oc : List (String × Int)),
      run opt fuel [] sc oc =
        some { reconfiguration_cost := 0, observation_cost := 0, tests := [] } :=
  ⟨rfl, fun opt fuel sc oc => run_empty opt fuel sc oc⟩

/-! ## Embedding of `prune_tests.py` -/

/-- One record of `sufficiency_data["results"]["bindings"]`. -/
structure SuffRecord where
  reqName : String
  scenarios : String
deriving DecidableEq

/-- The `sufficients` dict: each record overwrites the requirement's entry
with the singleton `{frozenset(scenarios.split(","))}`. -/
def suff_map (sufficiency_data : List SuffRecord) :
    List (String × Finset (Finset String)) :=
  sufficiency_data.foldl
    (fun m sh => aset m sh.reqName {(split_on_commas sh.scenarios).toFinset}) []

/-- The keep/drop decision for one requirement id: kept when it has no
sufficiency record, or when the test's configuration is among its certified
sets. -/
def keep_requirement (sufficients : List (String × Finset (Finset String)))
    (config : Finset String) (r_id : String) : Bool :=
  match alookup sufficients r_id with
  | some sets => config ∈ sets
  | none => true

/-- Source `prune_tests`: strip insufficient requirements, then drop empty
quantities, then drop tests with no quantities left. -/
def prune_tests (tests_data : List GTest) (sufficiency_data : List SuffRecord) :
    List GTest :=
  let sufficients := suff_map sufficiency_data
  (tests_data.map (fun t =>
    { t with quantities :=
        ((t.quantities.map (fun qe =>
          (qe.1, qe.2.filter (keep_requirement sufficients t.scenarios.toFinset)))).filter
          (fun qe => !qe.2.isEmpty)) })).filter
    (fun t => !t.quantities.isEmpty)

/-- C4: after pruning, every remaining test has at least one quantity, every
remaining quantity has at least one requirement, and every listed
requirement either has no sufficiency record or has one whose certified sets
contain a set equal to the test's scenario set. -/
theorem pruned_invariants (tests : List GTest) (suff : List SuffRecord)
    (t : GTest) (ht : t ∈ prune_tests tests suff) :
    t.quantities ≠ [] ∧
    ∀ q rs, (q, rs) ∈ t.quantities → rs ≠ [] ∧
      ∀ r ∈ rs, alookup (suff_map suff) r = none ∨
        ∃ sets, alookup (suff_map suff) r = some sets ∧
          t.scenarios.toFinset ∈ sets := by
  rw [prune_tests] at ht
  rw [List.mem_filter] at ht
  obtain ⟨htm, hne⟩ := ht
  constructor
  · intro hq
    rw [hq] at hne
    simp at hne
  · obtain ⟨t0, _, ht0⟩ := List.mem_map.mp htm
    intro q rs hqrs
    rw [← ht0] at hqrs
    dsimp only at hqrs
    rw [List.mem_filter] at hqrs
    obtain ⟨hqm, hrne⟩ := hqrs
    constructor
    · intro hrs
      rw [hrs] at hrne
      simp at hrne
    · intro r hr
      obtain ⟨qe0, _, hqe0⟩ := List.mem_map.mp hqm
      have hrs : rs = qe0.2.filter
          (keep_requirement (suff_map suff) t0.scenarios.toFinset) := by
        have := congrArg Prod.snd hqe0
        exact this.symm
      rw [hrs, List.mem_filter] at hr
      have hkeep := hr.2
      have hscen : t.scenarios = t0.scenarios := by
        rw [← ht0]
      rw [keep_requirement] at hkeep
      rw [hscen]
      cases hlk : alookup (suff_map suff) r with
      | none => exact Or.inl rfl
      | some sets =>
        rw [hlk] at hkeep
        refine Or.inr ⟨sets, rfl, ?_⟩
        simpa using hkeep

theorem pruned_invariants_witness :
    gtest_single ∈ prune_tests [gtest_single] [⟨"r1", "s1"⟩] ∧
    (gtest_single.quantities ≠ [] ∧
    ∀ q rs, (q, rs) ∈ gtest_single.quantities → rs ≠ [] ∧
      ∀ r ∈ rs, alookup (suff_map [⟨"r1", "s1"⟩]) r = none ∨
        ∃ sets, alookup (suff_map [⟨"r1", "s1"⟩]) r = some sets ∧
          gtest_single.scenarios.toFinset ∈ sets) :=
  ⟨by decide,
    pruned_invariants [gtest_single] [⟨"r1", "s1"⟩] gtest_single (by decide)⟩

lemma suff_map_append (l : List SuffRecord) (sh : SuffRecord) :
    suff_map (l ++ [sh]) =
      aset (suff_map l) sh.reqName {(split_on_commas sh.scenarios).toFinset} := by
  rw [suff_map, suff_map, List.foldl_append]
  rfl

/-- C10: the sufficiency mapping retains only the last record per
requirement id (assignment overwrites, never unions), and a requirement with
a trailing record is kept in a test precisely when the test's configuration
equals that last record's scenario set -- earlier records have no effect. -/
theorem sufficiency_last_record_wins :
    (∀ (l : List SuffRecord) (r : String),
      alookup (suff_map l) r =
        match l.reverse.find? (fun sh => sh.reqName = r) with
        | some sh => some {(split_on_commas sh.scenarios).toFinset}
        | none => none) ∧
    (∀ (l : List SuffRecord) (sh : SuffRecord) (cfg : Finset String),
      keep_requirement (suff_map (l ++ [sh])) cfg sh.reqName =
        decide (cfg = (split_on_commas sh.scenarios).toFinset)) := by
  have hmain : ∀ (l : List SuffRecord) (r : String),
      alookup (suff_map l) r =
        match l.reverse.find? (fun sh => sh.reqName = r) with
        | some sh => some {(split_on_commas sh.scenarios).toFinset}
        | none => none := by
    intro l
    induction l using List.reverseRecOn with
    | nil => intro r; rfl
    | append_singleton l sh ih =>
      intro r
      rw [suff_map_append, alookup_aset, List.reverse_append]
      show _ = match (sh :: l.reverse).find? (fun sh => sh.reqName = r) with
        | some sh => some {(split_on_commas sh.scenarios).toFinset}
        | none => none
      rw [List.find?_cons]
      by_cases h : sh.reqName = r
      · rw [if_pos h.symm]
        rw [show (decide (sh.reqName = r)) = true from by simp [h]]
      · rw [if_neg (fun hh => h hh.symm)]
        rw [show (decide (sh.reqName = r)) = false from by simp [h], ih r]
  refine ⟨hmain, ?_⟩
  intro l sh cfg
  rw [keep_requirement, suff_map_append, alookup_aset, if_pos rfl]
  dsimp only
  simp [Finset.mem_singleton]

/-! ## Embedding of `costcalc2.py` -/

/-- Source `compute_cost`: sum of the looked-up costs of a list of scenario ids;
missing ids default to 0. -/
def compute_cost (cost_lookup : List (String × Int))
    (scenario_ids : List String) : Int :=
  (scenario_ids.map (fun sid => lookupD cost_lookup sid)).sum

structure CostTotals where
  total_apply_cost : Int
  total_retract_cost : Int
  total_combined_cost : Int
deriving DecidableEq

/-- Source `calculate_costs` over the `"scenarios"` cost table: apply and retract
sums over all tests, plus the final test's full `scenarios` list added to the
retract total.  `none` models the `IndexError` of `tests[-1]` on an empty
list. -/
def calculate_costs (tests : List ETest) (cost_lookup : List (String × Int)) :
    Option CostTotals :=
  let total_apply_cost := (tests.map (fun t => compute_cost cost_lookup t.apply)).sum
  let total_retract_cost :=
    (tests.map (fun t => compute_cost cost_lookup t.retract)).sum
  match tests.getLast? with
  | none => none
  | some last =>
    let final_retract_sum := compute_cost cost_lookup last.scenarios
    some { total_apply_cost := total_apply_cost
           total_retract_cost := total_retract_cost + final_retract_sum
           total_combined_cost :=
             total_apply_cost + (total_retract_cost + final_retract_sum) }

/-- C6: for a non-empty test list, `calculate_costs` returns the apply sum,
the retract sum plus the final test's full-scenario teardown, and their exact
sum; ids missing from the cost table contribute 0 and never raise. -/
theorem calculate_costs_totals (tests : List ETest)
    (cl : List (String × Int)) (h : tests ≠ []) :
    calculate_costs tests cl = some
      { total_apply_cost := (tests.map (fun t => compute_cost cl t.apply)).sum
        total_retract_cost :=
          (tests.map (fun t => compute_cost cl t.retract)).sum +
            compute_cost cl (tests.getLast h).scenarios
        total_combined_cost :=
          (tests.map (fun t => compute_cost cl t.apply)).sum +
            ((tests.map (fun t => compute_cost cl t.retract)).sum +
              compute_cost cl (tests.getLast h).scenarios) } ∧
    (∀ r, calculate_costs tests cl = some r →
      r.total_combined_cost = r.total_apply_cost + r.total_retract_cost) ∧
    (∀ sid, cl.find? (fun p => p.1 == sid) = none → lookupD cl sid = 0) := by
  have hlast : tests.getLast? = some (tests.getLast h) :=
    List.getLast?_eq_getLast tests h
  have hmain : calculate_costs tests cl = some
      { total_apply_cost := (tests.map (fun t => compute_cost cl t.apply)).sum
        total_retract_cost :=
          (tests.map (fun t => compute_cost cl t.retract)).sum +
            compute_cost cl (tests.getLast h).scenarios
        total_combined_cost :=
          (tests.map (fun t => compute_cost cl t.apply)).sum +
            ((tests.map (fun t => compute_cost cl t.retract)).sum +
              compute_cost cl (tests.getLast h).scenarios) } := by
    rw [calculate_costs, hlast]
  refine ⟨hmain, ?_, ?_⟩
  · intro r hr
    rw [hmain, Option.some_inj] at hr
    rw [← hr]
  · intro sid hf
    rw [lookupD, hf]

def etest_single : ETest :=
  { id := 1, uuid := "u", scenarios := ["a"], quantities := []
    retract := [], apply := ["a"] }

theorem calculate_costs_totals_witness :
    (([etest_single] : List ETest) ≠ []) ∧
    (calculate_costs [etest_single] [("a", 3)] = some
      { total_apply_cost := (([etest_single] : List ETest).map
          (fun t => compute_cost [("a", 3)] t.apply)).sum
        total_retract_cost := (([etest_single] : List ETest).map
            (fun t => compute_cost [("a", 3)] t.retract)).sum +
          compute_cost [("a", 3)]
            (([etest_single] : List ETest).getLast (by decide)).scenarios
        total_combined_cost := (([etest_single] : List ETest).map
            (fun t => compute_cost [("a", 3)] t.apply)).sum +
          ((([etest_single] : List ETest).map
              (fun t => compute_cost [("a", 3)] t.retract)).sum +
            compute_cost [("a", 3)]
              (([etest_single] : List ETest).getLast (by decide)).scenarios) } ∧
      (∀ r, calculate_costs [etest_single] [("a", 3)] = some r →
        r.total_combined_cost = r.total_apply_cost + r.total_retract_cost) ∧
      (∀ sid, ([("a", 3)] : List (String × Int)).find? (fun p => p.1 == sid) = none →
        lookupD [("a", 3)] sid = 0)) :=
  ⟨by decide, calculate_costs_totals [etest_single] [("a", 3)] (by decide)⟩

/-- C9: `calculate_costs` fails (the `tests[-1]` lookup raises `IndexError`)
precisely when the tests list is empty; on any non-empty list of tests it
returns normally, since every lookup uses a defaulting accessor. -/
theorem calculate_costs_none_iff_empty (tests : List ETest)
    (cl : List (String × Int)) :
    (calculate_costs tests cl).isNone ↔ tests = [] := by
  cases tests with
  | nil => simp [calculate_costs]
  | cons a l =>
    rw [calculate_costs]
    have hne : (a :: l) ≠ [] := by simp
    rw [List.getLast?_eq_getLast _ hne]
    simp

end Pipeline
